import Mathlib

/-!
Shallow embedding of `src/modules.rs` of the `custom_status_bar` repository.

The program is a status-line generator: a `Modules` aggregator owns an ordered
array of producers (`Box<dyn Module>`), a per-producer cache of formatted text
(`[Option<String>; N]`) and a tick counter.  Each call to `combine_modules`
visits the producers in registration order, decides per producer whether to
re-sample (`tick % rate == 0`) or serve the cached text, formats fresh samples
as JSON objects, joins the contributions with `", "` and wraps them in
brackets.

Producers perform OS calls (`sysinfo`, DBus, `/sys` reads); they are modelled
as oracles: each module carries an infinite stream of results, indexed by how
many times its sampler has been invoked so far.  This makes "the sampler is
invoked exactly once" expressible as an increment of the invocation count.
Machine integers (`usize`, `u64`) are modelled as `Nat`; the program only
increments the tick counter and performs `%`, `+`, `/` on sensor readings, so
overflow is immaterial for the claims treated here.  `u64` division by zero
panics in Rust while `Nat` division yields `0`; no claim below depends on a
zero divisor.
-/

/-- Fragment produced by a sampler: `ModuleOutput` (src/modules.rs lines 11-19).
`content` is `full_text`; the five optional fields are styling. -/
structure ModuleOutput where
  content : String
  color_fg : Option String := none
  color_bg : Option String := none
  border : Option String := none
  separator : Option Bool := none
  separator_block_width : Option Nat := none
deriving Repr, DecidableEq

/-- Result of one sampler call: `type ModuleRes = Result<ModuleOutput, Option<String>>`
(src/modules.rs line 64). `err (some mes)` is a message-bearing failure,
`err none` a silent failure. -/
inductive ModuleRes where
  | ok : ModuleOutput → ModuleRes
  | err : Option String → ModuleRes
deriving Repr, DecidableEq

/-- Rendering of a `bool` by Rust's `Display`, used for the `separator` field. -/
def boolDisplay (b : Bool) : String :=
  if b then "true" else "false"

/-- Rendering of a `usize` by Rust's `Display`, used for `separator_block_width`. -/
def natDisplay (n : Nat) : String :=
  toString n

/-- Helper `map_optional` (src/modules.rs lines 84-87): emit `, "key": value`
when the value is present, the empty string otherwise.  The Rust function takes
`Option<impl Display>`; callers here pass the `Display` rendering explicitly. -/
def map_optional (key : String) (val : Option String) : String :=
  match val with
  | some v => ", \"" ++ key ++ "\": " ++ v
  | none => ""

/-- Helper `map_optional_quotes` (src/modules.rs lines 89-92): like
`map_optional` but the value is surrounded by double quotes. -/
def map_optional_quotes (key : String) (val : Option String) : String :=
  match val with
  | some v => ", \"" ++ key ++ "\": \"" ++ v ++ "\""
  | none => ""

/-- JSON object built for a successful sample: the `Ok(modout)` arm of
`combine_modules` (src/modules.rs lines 117-126).  The text is inserted as-is,
with no escaping. -/
def formatOutput (m : ModuleOutput) : String :=
  "\x7b\"full_text\": \"" ++ m.content ++ "\""
    ++ map_optional_quotes "color" m.color_fg
    ++ map_optional_quotes "background" m.color_bg
    ++ map_optional_quotes "border" m.border
    ++ map_optional "separator" (m.separator.map boolDisplay)
    ++ map_optional "separator_block_width" (m.separator_block_width.map natDisplay)
    ++ "\x7d"

/-- JSON object built for a message-bearing failure: the
`Err(Some(mes)) if !mes.is_empty()` arm of `combine_modules`
(src/modules.rs lines 127-134). -/
def errorBlock (mes : String) : String :=
  "\x7b\"full_text\": \"" ++ mes ++ "\", \"color\": \"#ff0000\"\x7d"

/-- State of one registered producer, pairing the `Box<dyn Module>` at index
`i` of `Modules::modules` with the cache slot `Modules::cache[i]`.
`rate` is the module's `rate()` (constant per module type); `stream k` is the
result of the `k`-th invocation of `get_output` (the sampler is an oracle over
its own mutable state); `count` is how many times `get_output` has been
invoked so far; `cache` is the cached formatted text. -/
structure ModState where
  rate : Nat
  stream : Nat → ModuleRes
  cache : Option String
  count : Nat

/-- Registration-time description of a producer: its cadence and its sampler
oracle. -/
structure ModuleSpec where
  rate : Nat
  stream : Nat → ModuleRes

/-- Aggregator `Modules<N>` (src/modules.rs lines 78-82): ordered producers
with their cache slots, plus the tick counter. -/
structure Modules where
  mods : List ModState
  tick : Nat

/-- Constructor `Modules::new` (src/modules.rs lines 95-101): every cache slot
starts empty and the tick counter starts at 0. -/
def Modules.new (specs : List ModuleSpec) : Modules :=
  { mods := specs.map (fun s => { rate := s.rate, stream := s.stream, cache := none, count := 0 }),
    tick := 0 }

/-- Body of the `filter_map` closure in `combine_modules`
(src/modules.rs lines 110-147) for one producer, at the (pre-increment) tick:
returns the producer's contribution to the line (none = omitted) and its
updated state.

When the producer is not due (`tick % rate != 0`) the cached text is returned
verbatim.  When due, the sampler is invoked: a success is formatted; a failure
with a non-empty message becomes the fixed-style error object; any other
failure contributes nothing and clears the cache slot when `rate > 1`.  After
the success and non-empty-message arms the code stores `res_inner` in the
cache slot whenever `rate > 1` (lines 143-145) — note that this caches error
blocks too. -/
def stepModule (tick : Nat) (m : ModState) : Option String × ModState :=
  if tick % m.rate ≠ 0 then
    (m.cache, m)
  else
    match m.stream m.count with
    | .ok modout =>
        let res_inner := formatOutput modout
        (some res_inner,
         { m with cache := if m.rate > 1 then some res_inner else m.cache,
                  count := m.count + 1 })
    | .err (some mes) =>
        if mes.isEmpty then
          (none,
           { m with cache := if m.rate > 1 then none else m.cache,
                    count := m.count + 1 })
        else
          let res_inner := errorBlock mes
          (some res_inner,
           { m with cache := if m.rate > 1 then some res_inner else m.cache,
                    count := m.count + 1 })
    | .err none =>
        (none,
         { m with cache := if m.rate > 1 then none else m.cache,
                  count := m.count + 1 })

/-- The `Iterator::reduce(|a, n| a + ", " + &n)` call of `combine_modules`
(src/modules.rs line 148). -/
def reduceComma : List String → Option String
  | [] => none
  | x :: xs => some (xs.foldl (fun a n => a ++ ", " ++ n) x)

/-- Aggregator step `Modules::combine_modules` (src/modules.rs lines 103-156):
visit the producers in registration order, join the contributions with `", "`,
wrap in brackets, increment the tick counter, return the line with the new
state.  (Rust mutates in place; here the new state is returned.  Each closure
invocation touches only its own producer and cache slot, so the in-order `map`
is exact.) -/
def Modules.combine_modules (a : Modules) : String × Modules :=
  let stepped := a.mods.map (stepModule a.tick)
  ("[" ++ (reduceComma (stepped.filterMap Prod.fst)).getD "" ++ "]",
   { mods := stepped.map Prod.snd, tick := a.tick + 1 })

/-- The aggregator after `n` calls to `combine_modules`, modelling `n`
iterations of the driver loop in `src/main.rs`. -/
def iterCombine (a : Modules) : Nat → Modules
  | 0 => a
  | n + 1 => ((iterCombine a n).combine_modules).2

/-- Evolution of a single producer's state through `k` aggregator calls, the
first of which happens at tick `t0`. -/
def modIter (t0 : Nat) (m : ModState) : Nat → ModState
  | 0 => m
  | k + 1 => (stepModule (t0 + k) (modIter t0 m k)).2

/-- Panic-aware version of the per-producer step: Rust's `self.tick % v.rate()`
panics when `rate() == 0` (`none` models the panic); otherwise the step is the
one of `stepModule`.  Every `Module` implementation in src/modules.rs has a
positive rate (the trait default is 1; the overrides return 3 and 5). -/
def stepModuleChecked (tick : Nat) (m : ModState) : Option (Option String × ModState) :=
  if m.rate = 0 then none else some (stepModule tick m)

/-- Panic-aware version of `combine_modules`: `none` if any per-producer step
panics, otherwise the line and the new state. -/
def combine_modules_checked (a : Modules) : Option (String × Modules) :=
  (a.mods.mapM (stepModuleChecked a.tick)).map (fun stepped =>
    ("[" ++ (reduceComma (stepped.filterMap Prod.fst)).getD "" ++ "]",
     { mods := stepped.map Prod.snd, tick := a.tick + 1 }))

/-- Rates of the `Module` implementations in src/modules.rs:
`DateTimeModule`, `CpuModule` and `SpacerModule` use the trait default 1
(lines 67-69); `RamModule::rate` is 3 (line 193); `TemperatureModule`,
`DiskSpaceModule`, `NetworkModule` and `BatteryModule` return 5. -/
def repoRates : List Nat :=
  [1, 3, 1, 5, 5, 5, 5, 1]

/-- The line `line` contains `block` as a contiguous substring. -/
def containsBlock (line block : String) : Prop :=
  ∃ p q, line = p ++ block ++ q

/-- Whether a sampler result is a success, for stating the spec's cache
invariant. -/
def resultOk : ModuleRes → Bool
  | .ok _ => true
  | .err _ => false

/-- Whether a sampler result leads to a stored cache entry when the producer
is due and slow: a success or a failure with a non-empty message. -/
def notSilent : ModuleRes → Bool
  | .ok _ => true
  | .err (some mes) => !mes.isEmpty
  | .err none => false

/-- Cache invariant as the spec claims it (claim C2): a slot holds a value iff
the most recent sample attempt succeeded and the cadence exceeds 1. -/
def specCacheInv (m : ModState) : Bool :=
  m.cache.isSome == (decide (1 < m.rate) && decide (0 < m.count)
    && resultOk (m.stream (m.count - 1)))

/-- Cache invariant as the code maintains it: a slot holds a value iff the
cadence exceeds 1 and the most recent sample attempt was not a silent failure
(it succeeded or failed with a non-empty message). -/
def cacheInv (m : ModState) : Prop :=
  m.cache.isSome = (decide (1 < m.rate) && decide (0 < m.count)
    && notSilent (m.stream (m.count - 1)))

/-- Battery sampler inputs (src/modules.rs lines 402-434): per device path,
the parsed `charge_full`, `charge_now` and `current_now` readings
(`read_to_string(..).map(|v| v.trim().parse::<u64>().ok()).ok().flatten()`,
so `none` means the path was unreadable or its content unparsable), and the
raw `status` file contents (`none` = unreadable). -/
structure BatteryEnv where
  charge_full : List (Option Nat)
  charge_now : List (Option Nat)
  current_now : List (Option Nat)
  status : List (Option String)

/-- The `get_measure` closure of `BatteryModule::get_output`
(src/modules.rs lines 403-414): per-device readings are summed with
`reduce(|a, n| Some(a? + n?)).flatten()`, so the sum is available only when
every device reading is. -/
def get_measure (vals : List (Option Nat)) : Option Nat :=
  (match vals with
   | [] => none
   | x :: xs =>
       some (xs.foldl
         (fun (a n : Option Nat) =>
           match a, n with
           | some av, some nv => some (av + nv)
           | _, _ => none) x)).join

/-- The per-device status direction of `BatteryModule::get_output`
(src/modules.rs lines 429-433): `Charging` is 1, `Discharging` is -1,
anything else (including an unreadable file) is 0. -/
def statusDir (s : Option String) : Int :=
  match s with
  | some mes =>
      if mes.trim = "Charging" then 1
      else if mes.trim = "Discharging" then -1
      else 0
  | none => 0

/-- Model of Rust's `char::from_u32` (valid unicode scalar values). -/
def char_from_u32 (n : Nat) : Option Char :=
  if n < 0xd800 ∨ (0xdfff < n ∧ n < 0x110000) then some (Char.ofNat n) else none

/-- Fallback character of `unwrap_or` at src/modules.rs line 425: the literal
is U+F244 (bytes `ef 89 84`). -/
def batteryFallbackChar : Char :=
  (char_from_u32 0xf244).getD ' '

/-- Battery sampler `BatteryModule::get_output` (src/modules.rs lines 401-475),
as a function of the filesystem readings.  If any of the three summed measures
is unavailable, `ok_or(None)?` returns the silent failure `Err(None)`.  The
success path computes the percentage with `u64` arithmetic, the battery glyph
with `char::from_u32(0xf244 - (4*perc)/100)`, and the time-remaining estimate
with `f32` arithmetic — the latter is modelled exactly over `ℚ` (the claims
treated here never evaluate it). -/
def battery_get_output (env : BatteryEnv) : ModuleRes :=
  match get_measure env.charge_full with
  | none => .err none
  | some ecap =>
    match get_measure env.charge_now with
    | none => .err none
    | some enow =>
      match get_measure env.current_now with
      | none => .err none
      | some cnow =>
        let perc := (100 * enow) / ecap
        let bat := (char_from_u32 (0xf244 - (4 * perc) / 100)).getD batteryFallbackChar
        let state? := (env.status.map statusDir).find? (fun v => v ≠ 0)
        let fg_hours : Option String × ℚ :=
          match state? with
          | some 1 => (some "#50fa7b", ((ecap - enow : Nat) : ℚ) / (cnow : ℚ))
          | some (-1) => (some "#ff5555", (enow : ℚ) / (cnow : ℚ))
          | _ => (none, 0)
        let hours_left := fg_hours.2
        let mins_left : ℚ := (hours_left - Rat.floor hours_left) * 60
        let head := String.singleton bat ++ " " ++ natDisplay perc ++ "%"
        let content :=
          if Rat.floor hours_left > 0 then
            head ++ " [" ++ toString (Rat.floor hours_left) ++ "h "
              ++ toString (Rat.floor mins_left) ++ "m]"
          else if mins_left > 0 then
            head ++ " [" ++ toString (Rat.floor mins_left) ++ "m]"
          else
            head
        .ok { content := content, color_fg := fg_hours.1 }

/-- Specification-side formatter (for the refinement claim C7), following the
spec's words: the object is the `full_text` pair followed by exactly the
present optional keys, in the fixed order `color`, `background`, `border`,
`separator`, `separator_block_width`; string values are quoted, `bool` and
`uint` values are bare; the pairs are joined with `", "`. -/
def quoteStr (s : String) : String :=
  "\"" ++ s ++ "\""

/-- Rendering of one optional key/value pair for the spec-side formatter: a
present value becomes the pair text, an absent one no entry at all. -/
def renderPiece (kv : String × Option String) : Option String :=
  kv.2.map (fun v => "\"" ++ kv.1 ++ "\": " ++ v)

/-- Modelled from the spec (sections 4.2 and 8, "Formatter round-trip"): the
emitted object as a joined list of exactly the present key/value pairs. -/
def formatSpec (m : ModuleOutput) : String :=
  "\x7b" ++ String.intercalate ", "
    (("\"full_text\": " ++ quoteStr m.content) ::
      ([("color", m.color_fg.map quoteStr),
        ("background", m.color_bg.map quoteStr),
        ("border", m.border.map quoteStr),
        ("separator", (m.separator.map boolDisplay)),
        ("separator_block_width", (m.separator_block_width.map natDisplay))].filterMap
        renderPiece)) ++ "\x7d"

/-- Concatenation of already-separated entries: each entry is preceded by the
`", "` separator. -/
def sepcat : List String → String
  | [] => ""
  | y :: ys => ", " ++ y ++ sepcat ys

/-- Chain of `map_optional` fragments, mirroring the sequence of optional-field
appends in `combine_modules`. -/
def moChain : List (String × Option String) → String
  | [] => ""
  | kv :: rest => map_optional kv.1 kv.2 ++ moChain rest

/-- Concrete producer: cadence 5, always failing with message `"E"`.  Used to
exercise the message-bearing-failure path on a slow producer. -/
def exErrMod : ModState :=
  { rate := 5, stream := fun _ => ModuleRes.err (some "E"), cache := none, count := 0 }

/-- Aggregator owning only `exErrMod`, at tick 0. -/
def exErrAgg : Modules :=
  { mods := [exErrMod], tick := 0 }

/-- Concrete producer set: cadence 5, always failing with message `"F"`. -/
def exErrSpecF : ModuleSpec :=
  { rate := 5, stream := fun _ => ModuleRes.err (some "F") }

/-- Concrete producer set for the totality theorem: the three failure/success
kinds at the rates occurring in src/modules.rs. -/
def exMixSpecs : List ModuleSpec :=
  [{ rate := 1, stream := fun _ => ModuleRes.ok { content := "A" } },
   { rate := 3, stream := fun _ => ModuleRes.err none },
   { rate := 5, stream := fun _ => ModuleRes.err (some "E") }]

/-- Concrete producer: cadence 3, always succeeding with text `"X"`. -/
def exCad3 : ModuleSpec :=
  { rate := 3, stream := fun _ => ModuleRes.ok { content := "X" } }

/-- Concrete producer: cadence 2, succeeding once with `"X"` then failing
silently forever. -/
def exFailAfter : ModuleSpec :=
  { rate := 2, stream := fun k => if k = 0 then ModuleRes.ok { content := "X" }
      else ModuleRes.err none }

/-- Concrete battery readings with an unreadable `charge_full` device file. -/
def exBatteryEnv : BatteryEnv :=
  { charge_full := [none], charge_now := [some 1], current_now := [some 1], status := [] }

/-- Concrete aggregator at tick 1 in which no producer contributes: a slow
producer that is not yet due with an empty cache, and an always-due producer
failing with an empty message. -/
def exEmptyAgg : Modules :=
  { mods := [{ rate := 3, stream := fun _ => ModuleRes.err none, cache := none, count := 0 },
             { rate := 1, stream := fun _ => ModuleRes.err (some ""), cache := none, count := 0 }],
    tick := 1 }

/-!  Helper lemmas. -/

theorem add_mod_eq (t k c : Nat) (ht : t % c = 0) : (t + k) % c = k % c := by
  rw [Nat.add_mod, ht, Nat.zero_add, Nat.mod_mod_of_dvd _ (dvd_refl c)]

theorem foldl_comma_decomp (xs : List String) : ∀ acc : String,
    ∃ q, xs.foldl (fun a n => a ++ ", " ++ n) acc = acc ++ q := by
  induction xs with
  | nil => exact fun acc => ⟨"", by simp⟩
  | cons y ys ih =>
      intro acc
      obtain ⟨q, hq⟩ := ih (acc ++ ", " ++ y)
      refine ⟨", " ++ y ++ q, ?_⟩
      show List.foldl _ (acc ++ ", " ++ y) ys = _
      rw [hq]
      simp [String.append_assoc]

theorem foldl_comma_mem (x : String) (xs : List String) : ∀ acc : String, x ∈ xs →
    ∃ p q, xs.foldl (fun a n => a ++ ", " ++ n) acc = p ++ x ++ q := by
  induction xs with
  | nil => intro _ hx; cases hx
  | cons y ys ih =>
      intro acc hx
      rcases List.mem_cons.mp hx with h | h
      · subst h
        obtain ⟨q, hq⟩ := foldl_comma_decomp ys (acc ++ ", " ++ x)
        exact ⟨acc ++ ", ", q, by simpa [String.append_assoc] using hq⟩
      · exact ih (acc ++ ", " ++ y) h

theorem reduceComma_mem (x : String) (l : List String) (hx : x ∈ l) :
    ∃ p q, (reduceComma l).getD "" = p ++ x ++ q := by
  cases l with
  | nil => cases hx
  | cons y ys =>
      rcases List.mem_cons.mp hx with h | h
      · subst h
        obtain ⟨q, hq⟩ := foldl_comma_decomp ys x
        exact ⟨"", q, by simpa using hq⟩
      · exact foldl_comma_mem x ys y h

theorem foldl_comma_go (ys : List String) : ∀ y : String,
    ys.foldl (fun a n => a ++ ", " ++ n) y = String.intercalate.go y ", " ys := by
  induction ys with
  | nil => intro y; rfl
  | cons z zs ih => intro y; simp [String.intercalate.go, List.foldl, ih]

theorem reduceComma_intercalate (l : List String) :
    (reduceComma l).getD "" = String.intercalate ", " l := by
  cases l with
  | nil => rfl
  | cons y ys => simpa [reduceComma, String.intercalate] using foldl_comma_go ys y

theorem output_contains (a : Modules) (s : String)
    (hs : s ∈ (a.mods.map (stepModule a.tick)).filterMap Prod.fst) :
    containsBlock a.combine_modules.1 s := by
  obtain ⟨p, q, hpq⟩ := reduceComma_mem s _ hs
  exact ⟨"[" ++ p, q ++ "]", by
    show "[" ++ _ ++ "]" = _
    rw [hpq]
    simp [String.append_assoc]⟩

theorem contrib_mem (b : Modules) (i : Nat) (mm : ModState) (s : String)
    (hm : b.mods[i]? = some mm) (hc : (stepModule b.tick mm).1 = some s) :
    s ∈ (b.mods.map (stepModule b.tick)).filterMap Prod.fst := by
  obtain ⟨h, hget⟩ := List.getElem?_eq_some.mp hm
  refine List.mem_filterMap.mpr ⟨stepModule b.tick mm, ?_, hc⟩
  exact List.mem_map.mpr ⟨mm, by rw [← hget]; exact List.getElem_mem h, rfl⟩

theorem iterCombine_tick (a : Modules) (n : Nat) :
    (iterCombine a n).tick = a.tick + n := by
  induction n with
  | zero => rfl
  | succ n ih =>
      show ((iterCombine a n).combine_modules).2.tick = _
      simp [Modules.combine_modules, ih, Nat.add_assoc]

theorem iterCombine_mods (a : Modules) (n : Nat) (i : Nat) :
    (iterCombine a n).mods[i]? = (a.mods[i]?).map (fun m => modIter a.tick m n) := by
  induction n with
  | zero =>
      cases h : a.mods[i]? <;> simp [iterCombine, modIter, h]
  | succ n ih =>
      show ((iterCombine a n).combine_modules).2.mods[i]? = _
      simp only [Modules.combine_modules, List.map_map, List.getElem?_map, ih,
        iterCombine_tick, Option.map_map]
      cases a.mods[i]? with
      | none => rfl
      | some m => simp [modIter, Function.comp]

theorem stepModule_not_due (t : Nat) (m : ModState) (h : t % m.rate ≠ 0) :
    stepModule t m = (m.cache, m) := by
  unfold stepModule
  rw [if_pos h]

theorem stepModule_due_ok (t : Nat) (m : ModState) (out : ModuleOutput)
    (h : t % m.rate = 0) (hs : m.stream m.count = .ok out) :
    stepModule t m = (some (formatOutput out),
      { m with cache := if m.rate > 1 then some (formatOutput out) else m.cache,
               count := m.count + 1 }) := by
  unfold stepModule
  rw [if_neg (by omega), hs]

theorem stepModule_due_err_msg (t : Nat) (m : ModState) (mes : String)
    (h : t % m.rate = 0) (hs : m.stream m.count = .err (some mes)) (hne : mes ≠ "") :
    stepModule t m = (some (errorBlock mes),
      { m with cache := if m.rate > 1 then some (errorBlock mes) else m.cache,
               count := m.count + 1 }) := by
  have hE : mes.isEmpty = false := by
    cases hval : mes.isEmpty
    · rfl
    · exact absurd ((String.isEmpty_iff mes).mp hval) hne
  unfold stepModule
  rw [if_neg (by omega), hs]
  simp only [hE, Bool.false_eq_true, if_false]

theorem stepModule_due_silent (t : Nat) (m : ModState) (e : Option String)
    (h : t % m.rate = 0) (hs : m.stream m.count = .err e)
    (he : e = none ∨ e = some "") :
    stepModule t m = (none,
      { m with cache := if m.rate > 1 then none else m.cache,
               count := m.count + 1 }) := by
  rcases he with rfl | rfl
  · unfold stepModule
    rw [if_neg (by omega), hs]
  · unfold stepModule
    rw [if_neg (by omega), hs]
    rfl

theorem modIter_steady (m : ModState) (out : ModuleOutput) (t : Nat)
    (ht : t % m.rate = 0) (hs : m.stream m.count = .ok out) :
    ∀ k, 1 ≤ k → k ≤ m.rate →
      modIter t m k
        = { m with cache := if m.rate > 1 then some (formatOutput out) else m.cache,
                   count := m.count + 1 } := by
  intro k
  induction k with
  | zero => omega
  | succ k ih =>
      intro _ hk2
      cases Nat.eq_zero_or_pos k with
      | inl hk0 =>
          subst hk0
          show (stepModule (t + 0) (modIter t m 0)).2 = _
          simp only [modIter, Nat.add_zero]
          rw [stepModule_due_ok t m out ht hs]
      | inr hk1 =>
          have hrec := ih hk1 (Nat.le_of_succ_le hk2)
          show (stepModule (t + k) (modIter t m k)).2 = _
          rw [hrec]
          have hklt : k < m.rate := Nat.lt_of_succ_le hk2
          have hnd : (t + k) % m.rate ≠ 0 := by
            rw [add_mod_eq t k m.rate ht, Nat.mod_eq_of_lt hklt]
            omega
          rw [stepModule_not_due (t + k)
            { m with cache := if m.rate > 1 then some (formatOutput out) else m.cache,
                     count := m.count + 1 } hnd]

theorem modIter_contrib (m : ModState) (out : ModuleOutput) (t : Nat)
    (ht : t % m.rate = 0) (hs : m.stream m.count = .ok out) :
    ∀ k, k < m.rate → (stepModule (t + k) (modIter t m k)).1 = some (formatOutput out) := by
  intro k hk
  cases Nat.eq_zero_or_pos k with
  | inl hk0 =>
      subst hk0
      simp only [modIter, Nat.add_zero]
      rw [stepModule_due_ok t m out ht hs]
  | inr hk1 =>
      have hrate : m.rate > 1 := by omega
      rw [modIter_steady m out t ht hs k hk1 (Nat.le_of_lt hk)]
      have hnd : (t + k) % m.rate ≠ 0 := by
        rw [add_mod_eq t k m.rate ht, Nat.mod_eq_of_lt hk]
        omega
      rw [stepModule_not_due (t + k)
        { m with cache := if m.rate > 1 then some (formatOutput out) else m.cache,
                 count := m.count + 1 } hnd]
      simp [hrate]

theorem modIter_after_silent (m : ModState) (out : ModuleOutput) (t : Nat)
    (hc : 1 < m.rate) (ht : t % m.rate = 0)
    (hs0 : m.stream m.count = .ok out) (hs1 : m.stream (m.count + 1) = .err none) :
    ∀ d, d ≤ m.rate - 2 →
      modIter t m (m.rate + 1 + d) = { m with cache := none, count := m.count + 2 } := by
  intro d
  induction d with
  | zero =>
      intro _
      show (stepModule (t + m.rate) (modIter t m m.rate)).2 = _
      rw [modIter_steady m out t ht hs0 m.rate (by omega) (Nat.le_refl _)]
      have hdue : (t + m.rate) % m.rate = 0 := by
        rw [add_mod_eq t m.rate m.rate ht, Nat.mod_self]
      rw [stepModule_due_silent (t + m.rate)
        { m with cache := if m.rate > 1 then some (formatOutput out) else m.cache,
                 count := m.count + 1 } none hdue hs1 (Or.inl rfl)]
      simp [hc]
  | succ d ih =>
      intro hd
      have hrec := ih (by omega)
      show (stepModule (t + (m.rate + 1 + d)) (modIter t m (m.rate + 1 + d))).2 = _
      rw [hrec]
      have hnd : (t + (m.rate + 1 + d)) % m.rate ≠ 0 := by
        rw [add_mod_eq t _ m.rate ht]
        have harr : m.rate + 1 + d = m.rate + (1 + d) := by omega
        rw [harr, Nat.add_mod_left, Nat.mod_eq_of_lt (by omega)]
        omega
      rw [stepModule_not_due (t + (m.rate + 1 + d))
        { m with cache := none, count := m.count + 2 } hnd]

theorem stepModule_cacheInv (t : Nat) (m : ModState) (h : cacheInv m) :
    cacheInv (stepModule t m).2 := by
  by_cases hdue : t % m.rate ≠ 0
  · rw [stepModule_not_due t m hdue]
    exact h
  · rw [Classical.not_not] at hdue
    cases hres : m.stream m.count with
    | ok out =>
        rw [stepModule_due_ok t m out hdue hres]
        unfold cacheInv at h ⊢
        rcases Nat.lt_or_ge 1 m.rate with hr | hr
        · simp_all [notSilent, hres, hr]
        · have hr2 : ¬ (1 < m.rate) := by omega
          rw [if_neg hr2, h, decide_eq_false hr2]
          simp
    | err e =>
        cases e with
        | none =>
            rw [stepModule_due_silent t m none hdue hres (Or.inl rfl)]
            unfold cacheInv at h ⊢
            rcases Nat.lt_or_ge 1 m.rate with hr | hr
            · simp_all [notSilent, hres, hr]
            · have hr2 : ¬ (1 < m.rate) := by omega
              simp_all [notSilent, hres, hr2]
        | some mes =>
            cases hval : mes.isEmpty with
            | true =>
                have hmes : mes = "" := (String.isEmpty_iff mes).mp hval
                subst hmes
                rw [stepModule_due_silent t m (some "") hdue hres (Or.inr rfl)]
                unfold cacheInv at h ⊢
                rcases Nat.lt_or_ge 1 m.rate with hr | hr
                · simp_all [notSilent, hres, hr]
                · have hr2 : ¬ (1 < m.rate) := by omega
                  simp_all [notSilent, hres, hr2]
            | false =>
                have hne : mes ≠ "" := by
                  intro hcon
                  subst hcon
                  exact absurd hval (by decide)
                rw [stepModule_due_err_msg t m mes hdue hres hne]
                unfold cacheInv at h ⊢
                rcases Nat.lt_or_ge 1 m.rate with hr | hr
                · simp_all [notSilent, hres, hval, hr]
                · have hr2 : ¬ (1 < m.rate) := by omega
                  rw [if_neg hr2, h, decide_eq_false hr2]
                  simp

theorem mapM_stepChecked (t : Nat) : ∀ (l : List ModState), (∀ m ∈ l, 0 < m.rate) →
    l.mapM (stepModuleChecked t) = some (l.map (stepModule t)) := by
  intro l
  induction l with
  | nil => intro _; rfl
  | cons x xs ih =>
      intro h
      have hx : stepModuleChecked t x = some (stepModule t x) := by
        have := h x (List.mem_cons_self x xs)
        simp [stepModuleChecked]
        omega
      rw [List.mapM_cons, hx, ih (fun m hm => h m (List.mem_cons_of_mem x hm))]
      rfl

theorem measure_fold_none (xs : List (Option Nat)) : ∀ acc : Option Nat,
    (acc = none ∨ none ∈ xs) →
    xs.foldl (fun (a n : Option Nat) =>
      match a, n with
      | some av, some nv => some (av + nv)
      | _, _ => none) acc = none := by
  induction xs with
  | nil =>
      intro acc h
      rcases h with rfl | h
      · rfl
      · cases h
  | cons y ys ih =>
      intro acc h
      show ys.foldl _ (match acc, y with
        | some av, some nv => some (av + nv)
        | _, _ => none) = none
      rcases h with rfl | h
      · exact ih _ (Or.inl rfl)
      · rcases List.mem_cons.mp h with rfl | h
        · refine ih _ (Or.inl ?_)
          cases acc <;> rfl
        · exact ih _ (Or.inr h)

theorem get_measure_none (vals : List (Option Nat)) (h : none ∈ vals) :
    get_measure vals = none := by
  cases vals with
  | nil => rfl
  | cons x xs =>
      have hx : x = none ∨ none ∈ xs := by
        rcases List.mem_cons.mp h with h1 | h1
        · exact Or.inl h1.symm
        · exact Or.inr h1
      show ((some (xs.foldl _ x)).join : Option Nat) = none
      rw [measure_fold_none xs x hx]
      rfl

theorem intercalate_go_sepcat (l : List String) : ∀ x,
    String.intercalate.go x ", " l = x ++ sepcat l := by
  induction l with
  | nil => intro x; simp [String.intercalate.go, sepcat]
  | cons y ys ih =>
      intro x
      rw [show String.intercalate.go x ", " (y :: ys)
          = String.intercalate.go (x ++ ", " ++ y) ", " ys from rfl, ih]
      simp [sepcat, String.append_assoc]

theorem intercalate_comma_cons (x : String) (l : List String) :
    String.intercalate ", " (x :: l) = x ++ sepcat l :=
  intercalate_go_sepcat l x

theorem map_optional_quotes_eq (k : String) (v : Option String) :
    map_optional_quotes k v = map_optional k (v.map quoteStr) := by
  cases v with
  | none => rfl
  | some s =>
      show ", \"" ++ k ++ "\": \"" ++ s ++ "\"" = ", \"" ++ k ++ "\": " ++ ("\"" ++ s ++ "\"")
      rw [show ("\": \"" : String) = "\": " ++ "\"" from rfl]
      simp only [String.append_assoc]

theorem sepcat_filterMap (l : List (String × Option String)) :
    sepcat (l.filterMap renderPiece) = moChain l := by
  induction l with
  | nil => rfl
  | cons kv rest ih =>
      obtain ⟨k, v⟩ := kv
      cases v with
      | none =>
          simpa [List.filterMap_cons, renderPiece, moChain, map_optional] using ih
      | some s =>
          simp only [List.filterMap_cons, renderPiece, Option.map_some, moChain, map_optional, ih,
            sepcat]
          rw [show (", \"" : String) = ", " ++ "\"" from rfl]
          simp only [String.append_assoc]

/-- Claim C5: for every tick, the returned line is the producers' contributions
joined with `", "` in registration order and wrapped in `[` and `]`, where each
producer's contribution is determined by its own state alone (due producers
sample fresh, others serve their cache), regardless of which producers were due. -/
theorem ordering_property (a : Modules) :
    a.combine_modules.1
      = "[" ++ String.intercalate ", "
          (a.mods.filterMap (fun m => (stepModule a.tick m).1)) ++ "]" := by
  show "[" ++ (reduceComma ((a.mods.map (stepModule a.tick)).filterMap Prod.fst)).getD ""
      ++ "]" = _
  rw [List.filterMap_map, reduceComma_intercalate]
  rfl

/-- Claim C7: the formatter emits an object that starts with the `full_text`
key and contains exactly the optional keys whose fields are set, in the fixed
order color, background, border, separator, separator_block_width; string
values are quoted while separator and separator_block_width are bare; absent
fields produce no key; the text is inserted as-is.  Stated as a refinement:
the code's formatter equals the spec-side formatter `formatSpec`, which builds
the object from exactly the present pairs in the fixed order. -/
theorem formatter_refinement (m : ModuleOutput) : formatOutput m = formatSpec m := by
  unfold formatOutput formatSpec
  rw [intercalate_comma_cons, sepcat_filterMap]
  rw [map_optional_quotes_eq "color", map_optional_quotes_eq "background",
    map_optional_quotes_eq "border"]
  simp only [moChain, quoteStr]
  rw [show ("\x7b\"full_text\": \"" : String) = "\x7b" ++ "\"full_text\": " ++ "\"" from rfl]
  simp only [String.append_assoc, String.append_empty]

/-- Claim C2, counterexample: the spec's cache invariant ("a cache slot holds a
value iff the most recent sample attempt succeeded and cadence > 1") fails on
the reachable state after one tick of a cadence-5 producer whose sampler fails
with the non-empty message `"F"`: the attempt failed, yet the error block was
stored in the cache slot. -/
theorem cache_invariant_claim_counterexample :
    ((iterCombine (Modules.new [exErrSpecF]) 1).mods.all specCacheInv) = false := by
  rfl

/-- Claim C2 (amended): at every reachable state of the aggregator, a cache
slot holds a value iff the producer's cadence exceeds 1 and its most recent
sample attempt did not fail silently, i.e. it succeeded or failed with a
non-empty message (the code caches error blocks of slow producers too). -/
theorem cache_invariant_all (specs : List ModuleSpec) (n : Nat) :
    List.Forall cacheInv (iterCombine (Modules.new specs) n).mods := by
  induction n with
  | zero =>
      rw [List.forall_iff_forall_mem]
      intro m hm
      simp only [iterCombine, Modules.new, List.mem_map] at hm
      obtain ⟨s, _, rfl⟩ := hm
      unfold cacheInv
      simp
  | succ n ih =>
      rw [List.forall_iff_forall_mem] at ih ⊢
      intro m hm
      have hstep : (iterCombine (Modules.new specs) (n + 1)).mods
          = ((iterCombine (Modules.new specs) n).mods.map
              (stepModule (iterCombine (Modules.new specs) n).tick)).map Prod.snd := rfl
      rw [hstep, List.map_map] at hm
      obtain ⟨m0, hm0, rfl⟩ := List.mem_map.mp hm
      exact stepModule_cacheInv _ m0 (ih m0 hm0)

/-- Claim C3: `combine_modules` is total — for every producer set with the
positive cadences of this repository's modules and every sequence of sampler
results, the panic-aware model returns the same line and state as the total
model (no panic), and a due producer's failure contributes either nothing or a
fixed-style error block, never anything else. -/
theorem combine_modules_total (a : Modules) (h : ∀ m ∈ a.mods, 0 < m.rate) :
    combine_modules_checked a = some a.combine_modules ∧
    (∀ m ∈ a.mods, ∀ e, a.tick % m.rate = 0 → m.stream m.count = .err e →
      (stepModule a.tick m).1 = none ∨
      ∃ mes, mes ≠ "" ∧ (stepModule a.tick m).1 = some (errorBlock mes)) := by
  constructor
  · unfold combine_modules_checked Modules.combine_modules
    rw [mapM_stepChecked a.tick a.mods h]
    rfl
  · intro m _ e hdue hs
    cases e with
    | none =>
        left
        rw [stepModule_due_silent a.tick m none hdue hs (Or.inl rfl)]
    | some mes =>
        cases hval : mes.isEmpty with
        | true =>
            left
            rw [stepModule_due_silent a.tick m (some mes) hdue hs
              (Or.inr (by rw [(String.isEmpty_iff mes).mp hval]))]
        | false =>
            right
            refine ⟨mes, ?_, ?_⟩
            · intro hcon
              subst hcon
              exact absurd hval (by decide)
            · have hne : mes ≠ "" := by
                intro hcon
                subst hcon
                exact absurd hval (by decide)
              rw [stepModule_due_err_msg a.tick m mes hdue hs hne]

/-- Claim C3, witness: the totality theorem applied to a concrete producer set
with cadences 1, 3 and 5 and all three result kinds. -/
theorem combine_modules_total_witness :
    (∀ m ∈ (Modules.new exMixSpecs).mods, 0 < m.rate) ∧
    combine_modules_checked (Modules.new exMixSpecs)
      = some (Modules.new exMixSpecs).combine_modules :=
  ⟨by decide, (combine_modules_total (Modules.new exMixSpecs) (by decide)).1⟩

/-- Claim C1, counterexample: for a cadence-5 producer whose sampler fails with
the non-empty message `"E"` at its due tick 0, the error block IS stored in the
producer's cache slot, and IS reused on the following non-refresh tick 1 — the
claim's "never stored and never reused" is false on this input. -/
theorem error_block_cached_counterexample :
    (exErrAgg.combine_modules.2.mods.map ModState.cache) = [some (errorBlock "E")] ∧
    (iterCombine exErrAgg 1).combine_modules.1 = "[" ++ errorBlock "E" ++ "]" := by
  constructor
  · rfl
  · rfl

/-- Claim C1 (amended): for every producer due at a tick whose sampler fails
with a non-empty message, the line returned by `combine_modules` on that exact
tick contains a block whose text is the message and whose color is the fixed
error color `#ff0000`; when the producer's cadence is 1 the cache slot is left
unchanged (the error block is not stored), but when the cadence exceeds 1 the
error block IS stored in the cache slot and IS served again on the next
non-refresh tick. -/
theorem error_block_visible (a : Modules) (i : Nat) (m : ModState) (mes : String)
    (hm : a.mods[i]? = some m)
    (ht : a.tick % m.rate = 0) (hs : m.stream m.count = .err (some mes)) (hne : mes ≠ "") :
    containsBlock a.combine_modules.1 (errorBlock mes) ∧
    (a.combine_modules.2.mods[i]?).map ModState.cache
      = some (if m.rate > 1 then some (errorBlock mes) else m.cache) ∧
    (1 < m.rate →
      (a.combine_modules.2.mods[i]?).map (fun mm => (stepModule a.combine_modules.2.tick mm).1)
        = some (some (errorBlock mes))) := by
  have hstep := stepModule_due_err_msg a.tick m mes ht hs hne
  have hmods : a.combine_modules.2.mods[i]?
      = some ((stepModule a.tick m).2) := by
    have h1 := iterCombine_mods a 1 i
    rw [hm] at h1
    have h2 : iterCombine a 1 = a.combine_modules.2 := rfl
    rw [h2] at h1
    rw [h1]
    show some (modIter a.tick m 1) = _
    rw [show modIter a.tick m 1 = (stepModule (a.tick + 0) m).2 from rfl, Nat.add_zero]
  refine ⟨?_, ?_, ?_⟩
  · refine output_contains a (errorBlock mes) (contrib_mem a i m (errorBlock mes) hm ?_)
    rw [hstep]
  · rw [hmods, hstep]
    rfl
  · intro hr
    rw [hmods, hstep]
    have htick : a.combine_modules.2.tick = a.tick + 1 := rfl
    rw [htick]
    have hnd : (a.tick + 1) %
        ({ m with cache := if m.rate > 1 then some (errorBlock mes) else m.cache,
                  count := m.count + 1 } : ModState).rate ≠ 0 := by
      show (a.tick + 1) % m.rate ≠ 0
      rw [add_mod_eq a.tick 1 m.rate ht, Nat.mod_eq_of_lt hr]
      omega
    rw [Option.map_some']
    rw [stepModule_not_due (a.tick + 1)
      { m with cache := if m.rate > 1 then some (errorBlock mes) else m.cache,
               count := m.count + 1 } hnd]
    simp [hr]

/-- Claim C1, witness: the amended theorem applied to a concrete cadence-5
producer failing with message `"E"` at tick 0. -/
theorem error_block_visible_witness :
    containsBlock exErrAgg.combine_modules.1 (errorBlock "E") ∧
    (exErrAgg.combine_modules.2.mods[0]?).map ModState.cache
      = some (if exErrMod.rate > 1 then some (errorBlock "E") else exErrMod.cache) ∧
    (1 < exErrMod.rate →
      (exErrAgg.combine_modules.2.mods[0]?).map
        (fun mm => (stepModule exErrAgg.combine_modules.2.tick mm).1)
        = some (some (errorBlock "E"))) :=
  error_block_visible exErrAgg 0 exErrMod "E" rfl (by decide) rfl (by decide)

/-- Claim C4: for every producer with cadence `c` whose sample at a due tick
(`tick mod c = 0`) succeeds, across the `c` consecutive aggregator calls
starting there the sampler is invoked exactly once (the invocation count rises
by one at the first call and stays there), and the identical formatted block
text appears in all `c` output lines. -/
theorem cadence_property (a : Modules) (i : Nat) (m : ModState) (out : ModuleOutput)
    (hm : a.mods[i]? = some m) (hc : 0 < m.rate)
    (ht : a.tick % m.rate = 0) (hs : m.stream m.count = .ok out) :
    (∀ k, 1 ≤ k → k ≤ m.rate →
        ((iterCombine a k).mods[i]?).map ModState.count = some (m.count + 1)) ∧
    (∀ k, k < m.rate →
        containsBlock ((iterCombine a k).combine_modules.1) (formatOutput out)) := by
  constructor
  · intro k hk1 hk2
    rw [iterCombine_mods, hm, Option.map_some', Option.map_some',
      modIter_steady m out a.tick ht hs k hk1 hk2]
  · intro k hk
    have hmods := iterCombine_mods a k i
    rw [hm, Option.map_some'] at hmods
    have hcontrib : (stepModule (iterCombine a k).tick (modIter a.tick m k)).1
        = some (formatOutput out) := by
      rw [iterCombine_tick]
      exact modIter_contrib m out a.tick ht hs k hk
    exact output_contains _ _ (contrib_mem (iterCombine a k) i (modIter a.tick m k)
      (formatOutput out) hmods hcontrib)

/-- Claim C4, witness: the cadence theorem applied to a concrete cadence-3
producer succeeding with text `"X"` from tick 0: the text appears in the line
of tick 1, and the invocation count is still 1 after 3 ticks. -/
theorem cadence_property_witness :
    containsBlock ((iterCombine (Modules.new [exCad3]) 1).combine_modules.1)
      (formatOutput { content := "X" }) ∧
    ((iterCombine (Modules.new [exCad3]) 3).mods[0]?).map ModState.count = some (0 + 1) :=
  ⟨(cadence_property (Modules.new [exCad3]) 0
      { rate := 3, stream := exCad3.stream, cache := none, count := 0 }
      { content := "X" } rfl (by decide) (by decide) rfl).2 1 (by decide),
   (cadence_property (Modules.new [exCad3]) 0
      { rate := 3, stream := exCad3.stream, cache := none, count := 0 }
      { content := "X" } rfl (by decide) (by decide) rfl).1 3 (by decide) (by decide)⟩

/-- Claim C6: if a producer with cadence `c > 1` samples successfully at a due
tick and then fails silently at its next due tick `t + c`, its cache slot is
cleared, and on every tick strictly between `t + c` and `t + 2c` the producer
contributes no block to the output line (no stale cached text is shown). -/
theorem cache_clear_property (a : Modules) (i : Nat) (m : ModState) (out : ModuleOutput)
    (hm : a.mods[i]? = some m) (hc : 1 < m.rate)
    (ht : a.tick % m.rate = 0)
    (hs0 : m.stream m.count = .ok out) (hs1 : m.stream (m.count + 1) = .err none) :
    ∀ k, m.rate < k → k < 2 * m.rate →
      ((iterCombine a k).mods[i]?).map ModState.cache = some none ∧
      ((iterCombine a k).mods[i]?).map
        (fun mm => (stepModule (iterCombine a k).tick mm).1) = some none := by
  intro k hk1 hk2
  have hd : k = m.rate + 1 + (k - m.rate - 1) := by omega
  have hstate : modIter a.tick m k = { m with cache := none, count := m.count + 2 } := by
    conv_lhs => rw [hd]
    exact modIter_after_silent m out a.tick hc ht hs0 hs1 (k - m.rate - 1) (by omega)
  have hmods := iterCombine_mods a k i
  rw [hm, Option.map_some'] at hmods
  constructor
  · rw [hmods, Option.map_some', hstate]
  · rw [hmods, Option.map_some', hstate]
    have hnd : (iterCombine a k).tick %
        ({ m with cache := none, count := m.count + 2 } : ModState).rate ≠ 0 := by
      show (iterCombine a k).tick % m.rate ≠ 0
      rw [iterCombine_tick, add_mod_eq a.tick k m.rate ht,
        Nat.mod_eq_sub_mod (by omega), Nat.mod_eq_of_lt (by omega)]
      omega
    rw [stepModule_not_due ((iterCombine a k).tick)
      { m with cache := none, count := m.count + 2 } hnd]

/-- Claim C6, witness: the cache-clear theorem applied to a concrete cadence-2
producer that succeeds at tick 0 and fails silently at tick 2, observed at
tick 3. -/
theorem cache_clear_property_witness :
    ((iterCombine (Modules.new [exFailAfter]) 3).mods[0]?).map ModState.cache = some none ∧
    ((iterCombine (Modules.new [exFailAfter]) 3).mods[0]?).map
      (fun mm => (stepModule (iterCombine (Modules.new [exFailAfter]) 3).tick mm).1)
      = some none :=
  cache_clear_property (Modules.new [exFailAfter]) 0
    { rate := 2, stream := exFailAfter.stream, cache := none, count := 0 }
    { content := "X" } rfl (by decide) (by decide) rfl rfl 3 (by decide) (by decide)

/-- Claim C9: whenever any of the summed charge-full, charge-now or current-now
readings is unavailable (some device path unreadable or unparsable), the
battery producer fails silently (`Err(None)`), and consequently a due
aggregator step for a producer returning that result contributes no block and
clears the cache slot of a slow producer rather than rendering an error block. -/
theorem battery_missing_silent (env : BatteryEnv)
    (h : none ∈ env.charge_full ∨ none ∈ env.charge_now ∨ none ∈ env.current_now) :
    battery_get_output env = .err none ∧
    (∀ (t : Nat) (m : ModState), t % m.rate = 0 →
      m.stream m.count = battery_get_output env →
      (stepModule t m).1 = none ∧
      (stepModule t m).2.cache = if m.rate > 1 then none else m.cache) := by
  have main : battery_get_output env = .err none := by
    unfold battery_get_output
    rcases h with h | h | h
    · rw [get_measure_none _ h]
    · cases hcf : get_measure env.charge_full with
      | none => rfl
      | some ecap => rw [get_measure_none _ h]
    · cases hcf : get_measure env.charge_full with
      | none => rfl
      | some ecap =>
          cases hcn : get_measure env.charge_now with
          | none => rfl
          | some enow => rw [get_measure_none _ h]
  refine ⟨main, ?_⟩
  intro t m hdue hs
  rw [main] at hs
  rw [stepModule_due_silent t m none hdue hs (Or.inl rfl)]
  exact ⟨rfl, rfl⟩

/-- Claim C9, witness: the battery theorem applied to concrete readings with an
unreadable charge-full file. -/
theorem battery_missing_silent_witness :
    (none ∈ exBatteryEnv.charge_full ∨ none ∈ exBatteryEnv.charge_now ∨
      none ∈ exBatteryEnv.current_now) ∧
    battery_get_output exBatteryEnv = .err none :=
  ⟨Or.inl (by decide), (battery_missing_silent exBatteryEnv (Or.inl (by decide))).1⟩

/-- Claim C10: on a tick where no producer contributes (each is either not due
with an empty cache slot, or due and failing with no message or an empty
message), `combine_modules` returns exactly `"[]"` and still increments the
tick counter; moreover a due failure with an empty-string message is handled
identically to a failure with no message: the block is omitted and the cache
slot is cleared when the cadence exceeds 1. -/
theorem empty_line_property (a : Modules)
    (h : ∀ m ∈ a.mods,
        (a.tick % m.rate ≠ 0 ∧ m.cache = none) ∨
        (a.tick % m.rate = 0 ∧
          (m.stream m.count = .err none ∨ m.stream m.count = .err (some "")))) :
    a.combine_modules.1 = "[]" ∧
    a.combine_modules.2.tick = a.tick + 1 ∧
    (∀ (t : Nat) (mm : ModState), t % mm.rate = 0 →
      (mm.stream mm.count = .err (some "") ∨ mm.stream mm.count = .err none) →
      stepModule t mm
        = (none, { mm with cache := if mm.rate > 1 then none else mm.cache,
                           count := mm.count + 1 })) := by
  refine ⟨?_, rfl, ?_⟩
  · have hnil : (a.mods.map (stepModule a.tick)).filterMap Prod.fst = [] := by
      rw [List.filterMap_eq_nil_iff]
      intro p hp
      obtain ⟨mm, hmm, rfl⟩ := List.mem_map.mp hp
      rcases h mm hmm with ⟨hnd, hcache⟩ | ⟨hdue, hsil⟩
      · rw [stepModule_not_due _ _ hnd]
        exact hcache
      · rcases hsil with hsil | hsil
        · rw [stepModule_due_silent _ _ none hdue hsil (Or.inl rfl)]
        · rw [stepModule_due_silent _ _ (some "") hdue hsil (Or.inr rfl)]
    show "[" ++ (reduceComma ((a.mods.map (stepModule a.tick)).filterMap Prod.fst)).getD ""
      ++ "]" = "[]"
    rw [hnil]
    rfl
  · intro t mm hdue hsil
    rcases hsil with hsil | hsil
    · exact stepModule_due_silent t mm (some "") hdue hsil (Or.inr rfl)
    · exact stepModule_due_silent t mm none hdue hsil (Or.inl rfl)

/-- Claim C10, witness: the empty-line theorem applied to a concrete aggregator
at tick 1 with a not-yet-due empty-cached cadence-3 producer and an always-due
producer failing with an empty message. -/
theorem empty_line_property_witness :
    exEmptyAgg.combine_modules.1 = "[]" ∧
    exEmptyAgg.combine_modules.2.tick = exEmptyAgg.tick + 1 ∧
    (∀ (t : Nat) (mm : ModState), t % mm.rate = 0 →
      (mm.stream mm.count = .err (some "") ∨ mm.stream mm.count = .err none) →
      stepModule t mm
        = (none, { mm with cache := if mm.rate > 1 then none else mm.cache,
                           count := mm.count + 1 })) :=
  empty_line_property exEmptyAgg (by decide)
